import Mathlib

namespace LemmyCrawler

/-! ## Semantic versions

`semver::Version` restricted to the fields the crawler compares. Build
metadata is omitted: no version string handled by the claims carries it, and
it does not affect precedence of the examples below. Prerelease identifiers
are either numeric or alphanumeric, numeric identifiers comparing below
alphanumeric ones, as in the semver crate. -/

inductive PreId where
  | num (n : Nat)
  | alnum (s : String)
deriving DecidableEq, Repr, BEq

structure SemVer where
  major : Nat
  minor : Nat
  patch : Nat
  pre : List PreId
deriving DecidableEq, Repr

/-- Precedence of single prerelease identifiers: numeric compare numerically,
numeric below alphanumeric, alphanumeric compare lexically. -/
def preIdLt : PreId → PreId → Bool
  | .num a, .num b => decide (a < b)
  | .num _, .alnum _ => true
  | .alnum _, .num _ => false
  | .alnum a, .alnum b => decide (a < b)

/-- Lexicographic comparison of nonempty prerelease identifier lists; a strict
prefix compares below the longer list. -/
def preListLt : List PreId → List PreId → Bool
  | _, [] => false
  | [], _ :: _ => true
  | a :: as, b :: bs => preIdLt a b || (a == b && preListLt as bs)

/-- Prerelease comparison: an empty prerelease (a release) is never below
anything at the same version triple, and any prerelease is below the release. -/
def preLt : List PreId → List PreId → Bool
  | [], _ => false
  | _ :: _, [] => true
  | a :: as, b :: bs => preListLt (a :: as) (b :: bs)

/-- The strict order of `semver::Version` used by `version < min_lemmy_version`
in src/crawl.rs line 91. -/
def semverLt (a b : SemVer) : Bool :=
  decide (a.major < b.major) ||
  (a.major == b.major && (decide (a.minor < b.minor) ||
    (a.minor == b.minor && (decide (a.patch < b.patch) ||
      (a.patch == b.patch && preLt a.pre b.pre)))))

/-- Modulus of the Rust `u64` type of `Version::minor`. -/
def U64MOD : Nat := 2 ^ 64

/-- src/lib.rs lines 117-127, `min_lemmy_version`: the network fetch of the
published version string is abstracted into the argument `v`, which stands for
its parse result. The statement `version.minor -= 1` is unsigned `u64`
arithmetic and is modelled with wrapping semantics. -/
def min_lemmy_version (v : SemVer) : SemVer :=
  { v with minor := (v.minor + (U64MOD - 1)) % U64MOD }

/-! ## Domain validator

`DOMAIN_REGEX` in src/crawl.rs lines 31-33 is the anchored regular expression
on lowercase hostnames; it is translated by splitting on the literal
separators. -/

def isLowerAlpha (c : Char) : Bool := decide ('a' ≤ c) && decide (c ≤ 'z')

def isLowerAlnum (c : Char) : Bool := isLowerAlpha c || c.isDigit

/-- Splitting a character list at every occurrence of a separator; like
`String.splitOn` with a one-character separator, an empty input gives one
empty group and a trailing separator a trailing empty group. -/
def splitOnChar (sep : Char) : List Char → List (List Char)
  | [] => [[]]
  | c :: cs =>
    if c = sep then [] :: splitOnChar sep cs
    else
      match splitOnChar sep cs with
      | [] => [[c]]
      | g :: gs => (c :: g) :: gs

/-- One maximal hyphen-free chunk of a label: the regex piece `[a-z0-9]+`. -/
def isAlnumChunk (cs : List Char) : Bool := !cs.isEmpty && cs.all isLowerAlnum

/-- One dot-free label: the regex piece `[a-z0-9]+(-[a-z0-9]+)*`, i.e. hyphen
separated nonempty chunks. -/
def isLabel (cs : List Char) : Bool := (splitOnChar (Char.ofNat 45) cs).all isAlnumChunk

/-- The final label: the regex piece `[a-z]{2,}`. -/
def isTld (cs : List Char) : Bool := decide (2 ≤ cs.length) && cs.all isLowerAlpha

/-- `DOMAIN_REGEX.is_match`: one or more labels each followed by a dot, then a
top-level label of at least two lowercase letters. The string is processed as
its character list, split at the dots (character code 46; the hyphen is 45). -/
def domainRegexIsMatch (s : String) : Bool :=
  let parts := splitOnChar (Char.ofNat 46) s.toList
  decide (2 ≤ parts.length) && parts.dropLast.all isLabel && isTld (parts.getLastD [])

/-! ## Data model of one fetch -/

/-- An entry of a federation peer list, reduced to the only field the crawler
ever reads from it: `instance.domain` (src/crawl.rs lines 104-110, 130-139). -/
structure InstanceEntry where
  domain : String
deriving DecidableEq, Repr

/-- `FederatedInstances` of the v0.19 API: the three peer lists. -/
structure FederatedInstances where
  linked : List InstanceEntry
  allowed : List InstanceEntry
  blocked : List InstanceEntry
deriving DecidableEq, Repr

/-- `GetFederatedInstancesResponse` of the v0.19 API: an optional
`federated_instances` payload. -/
structure GetFederatedInstancesResponse where
  federated_instances : Option FederatedInstances
deriving DecidableEq, Repr

/-- The data produced by a successful `fetch_instance_details` call
(src/crawl.rs lines 146-195) that the rest of `crawl` reads: the parse result
of `site_info.version` (line 90), and the outcome of
`fetch_federated_instances().ok()` (line 192). -/
structure FetchData where
  version : Option SemVer
  federated : Option GetFederatedInstancesResponse
deriving DecidableEq, Repr

/-- Outcome of `fetch_instance_details`: `fail` covers transport errors,
undecodable payloads, a software name other than lemmy (line 171) and an actor
domain differing from the fetched address (line 176); `ok` carries the data. -/
inductive FetchResult where
  | fail (msg : String)
  | ok (data : FetchData)
deriving DecidableEq, Repr

/-- src/crawl.rs lines 36-40, the unit of work. -/
structure CrawlJob where
  domain : String
  current_distance : Nat
deriving DecidableEq, Repr

/-- src/crawl.rs lines 42-50, restricted to the immutable configuration
fields; the mutexed visited set and the two channel endpoints live in the
crawl state below, and the HTTP client is abstracted into the environment. -/
structure CrawlParams where
  min_lemmy_version : SemVer
  exclude_domains : List String
  max_distance : Nat
deriving DecidableEq, Repr

/-- src/crawl.rs lines 59-71, restricted to the domain and the three recorded
peer lists; `site_info`, `geo_ip` and `communities` are enrichment payloads
that no claim reads. -/
structure CrawlResult where
  domain : String
  linked_instances : List String
  allowed_instances : List String
  blocked_instances : List String
deriving DecidableEq, Repr

/-- Everything one `crawl` invocation emits after the visited-set claim:
the child jobs sent on the job queue (in order), the optional crawl result
sent on the result channel, and the return value. -/
structure JobOutput where
  children : List CrawlJob
  result : Option CrawlResult
  ret : Except String Unit
deriving Repr

/-- The chain `federated_instances.clone().map(|f| f.federated_instances)
.unwrap_or_default()` of src/crawl.rs lines 97-100 (also reached through
`into_iter().flat_map(|f| f.federated_instances)` on lines 117-119): joins the
two layers of `Option`. -/
def fedJoin (federated : Option GetFederatedInstancesResponse) : Option FederatedInstances :=
  match federated with
  | none => none
  | some g => g.federated_instances

/-- The linked peer list the expansion iterates over: src/crawl.rs lines
97-102, `.map(|f| f.linked).unwrap_or_default()`. -/
def linkedOf (federated : Option GetFederatedInstancesResponse) : List InstanceEntry :=
  ((fedJoin federated).map (fun f => f.linked)).getD []

/-- src/crawl.rs lines 88-143: the body of `CrawlJob::crawl` after the
visited-set claim. `fr` is the outcome of `fetch_instance_details` (line 88)
and `visited` is the content of `params.crawled_instances` at the moment the
expansion lock (line 96) is taken. On the success path the child jobs are the
linked peers filtered against the excluded set, the visited set and the domain
regex, at distance `current_distance + 1` (u8 arithmetic), emitted only when
`current_distance < max_distance`; exactly one `CrawlResult` recording the
three peer lists is then produced. -/
def crawlExpand (p : CrawlParams) (job : CrawlJob) (visited : List String)
    (fr : FetchResult) : JobOutput :=
  match fr with
  | .fail e => ⟨[], none, .error e⟩
  | .ok data =>
    match data.version with
    | none => ⟨[], none, .error "invalid version string"⟩
    | some version =>
      if semverLt version p.min_lemmy_version then
        ⟨[], none, .error "too old lemmy version"⟩
      else
        let children :=
          if job.current_distance < p.max_distance then
            ((((linkedOf data.federated).filter
                (fun i => !p.exclude_domains.contains i.domain)).filter
                (fun i => !visited.contains i.domain)).filter
                (fun i => domainRegexIsMatch i.domain)).map
              (fun i => CrawlJob.mk i.domain ((job.current_distance + 1) % 256))
          else []
        let f := fedJoin data.federated
        let crawl_result : CrawlResult :=
          { domain := job.domain
            linked_instances := (f.map (fun fi => fi.linked.map InstanceEntry.domain)).getD []
            allowed_instances := (f.map (fun fi => fi.allowed.map InstanceEntry.domain)).getD []
            blocked_instances := (f.map (fun fi => fi.blocked.map InstanceEntry.domain)).getD [] }
        ⟨children, some crawl_result, .ok ()⟩

/-- src/crawl.rs lines 75-144: one `CrawlJob::crawl` invocation executed
without interleaving. The mutex block of lines 77-86 tests membership of the
domain in the visited set and inserts it as one step; a duplicate returns
`Ok(())` at once, fetching nothing and sending nothing. -/
def crawlSeq (p : CrawlParams) (job : CrawlJob) (visited : List String)
    (fr : FetchResult) : List String × JobOutput :=
  if visited.contains job.domain then
    (visited, ⟨[], none, .ok ()⟩)
  else
    let visited2 := job.domain :: visited
    (visited2, crawlExpand p job visited2 fr)

inductive SchemaTag where
  | V018
  | V019
deriving DecidableEq, Repr

structure RawPayload where
  decodesAsV018 : Bool
  decodesAsV019 : Bool
deriving DecidableEq, Repr

/-- Decode of the untagged union `GetSiteResponse` (src/structs.rs lines
49-54): variants are attempted in declaration order, `V018` before `V019`;
the first structural success is adopted, and a payload acceptable to no
variant fails to decode. -/
def decodeGetSiteResponse (p : RawPayload) : Option SchemaTag :=
  if p.decodesAsV018 then some .V018
  else if p.decodesAsV019 then some .V019
  else none

/-! ## The concurrent crawl system

The run-wide shared state of `start_crawl` (src/lib.rs lines 41-85) with
`jobs_count` workers running `background_task` (lines 87-112). The network is
an environment `env : String → FetchResult` giving the outcome of
`fetch_instance_details` per domain. Each transition is one mutex-protected
or channel-atomic section:

* `claimDup` / `claimNew`: a worker receives the head of the job queue and
  runs the mutex block of src/crawl.rs lines 77-86 — the membership test and
  the insert are a single atomic step, before any network call. `fetched`
  records the domains for which `fetch_instance_details` is started, which
  happens exactly when the claim is won.
* `finish`: the claimed job completes its fetch with outcome `env job.domain`
  and runs the remainder of `crawl` (`crawlExpand`), reading the visited set
  of that moment under the second lock; its children are appended to the job
  queue and its optional result to the result list, and the job's
  `Arc<CrawlParams>` handle is released whatever the return value was —
  `background_task` only logs an `Err` (src/lib.rs lines 105-107).
* `orchDrop`: `start_crawl` drops its own `Arc<CrawlParams>` (src/lib.rs
  line 72) after seeding.

`handles` counts the live `Arc<CrawlParams>` clones: one per queued job, one
per running job, and the orchestrator's own until it is dropped. The single
`UnboundedSender<CrawlResult>` lives inside `CrawlParams` (src/crawl.rs line
48), so tokio closes the result channel exactly when `handles` reaches 0. -/

structure CrawlState where
  visited : List String
  queue : List CrawlJob
  running : List CrawlJob
  results : List CrawlResult
  fetched : List String
  orchHandle : Bool
  handles : Nat
deriving Repr

/-- src/lib.rs lines 47-72 before the drain: empty visited set, one seed job
per start instance at distance 0 (lines 65-68), no result yet, and one
`Arc<CrawlParams>` per seed job plus the orchestrator's own. -/
def initState (seeds : List String) : CrawlState :=
  { visited := []
    queue := seeds.map (fun d => ⟨d, 0⟩)
    running := []
    results := []
    fetched := []
    orchHandle := true
    handles := seeds.length + 1 }

/-- State after a `finish` transition of a job that was running between `l1`
and `l2` and produced `out`. -/
def finishTarget (s : CrawlState) (l1 l2 : List CrawlJob) (out : JobOutput) : CrawlState :=
  { s with running := l1 ++ l2
           queue := s.queue ++ out.children
           results := s.results ++ out.result.toList
           handles := s.handles - 1 + out.children.length }

inductive Step (env : String → FetchResult) (p : CrawlParams) : CrawlState → CrawlState → Prop where
  | claimDup (s : CrawlState) (job : CrawlJob) (rest : List CrawlJob)
      (hq : s.queue = job :: rest) (hv : s.visited.contains job.domain = true) :
      Step env p s { s with queue := rest, handles := s.handles - 1 }
  | claimNew (s : CrawlState) (job : CrawlJob) (rest : List CrawlJob)
      (hq : s.queue = job :: rest) (hv : s.visited.contains job.domain = false) :
      Step env p s { s with queue := rest
                            visited := job.domain :: s.visited
                            running := job :: s.running
                            fetched := job.domain :: s.fetched }
  | finish (s : CrawlState) (l1 l2 : List CrawlJob) (job : CrawlJob) (out : JobOutput)
      (hr : s.running = l1 ++ job :: l2)
      (ho : crawlExpand p job s.visited (env job.domain) = out) :
      Step env p s (finishTarget s l1 l2 out)
  | orchDrop (s : CrawlState) (h : s.orchHandle = true) :
      Step env p s { s with orchHandle := false, handles := s.handles - 1 }

/-- States of one crawl run: reachable from the seeded initial state. -/
def Reachable (env : String → FetchResult) (p : CrawlParams) (seeds : List String)
    (s : CrawlState) : Prop :=
  Relation.ReflTransGen (Step env p) (initState seeds) s

/-- The result channel is closed iff every `Arc<CrawlParams>` clone has been
released, the single `UnboundedSender<CrawlResult>` living inside
`CrawlParams`. -/
def resultChannelClosed (s : CrawlState) : Bool := s.handles == 0

/-- The intended handle accounting: one `Arc<CrawlParams>` per queued job, one
per running job, one for the orchestrator while it still holds its clone. -/
def handleCount (s : CrawlState) : Nat :=
  s.queue.length + s.running.length + (if s.orchHandle then 1 else 0)

/-- The federated payload carried by a fetch outcome, if any. -/
def fetchFed : FetchResult → Option GetFederatedInstancesResponse
  | .fail _ => none
  | .ok d => d.federated

/-- Deduplication invariant: the domains of the emitted results and of the
currently running jobs are pairwise distinct, each was fetched, each fetch was
started at most once, and every fetched domain is in the visited set. -/
def DomainsOk (s : CrawlState) : Prop :=
  (s.results.map CrawlResult.domain ++ s.running.map CrawlJob.domain).Nodup
  ∧ (∀ d ∈ s.results.map CrawlResult.domain ++ s.running.map CrawlJob.domain, d ∈ s.fetched)
  ∧ s.fetched.Nodup
  ∧ (∀ d ∈ s.fetched, d ∈ s.visited)

/-- Distance invariant: every job waiting in the queue or executing is within
the configured maximum distance. -/
def DistOk (p : CrawlParams) (s : CrawlState) : Prop :=
  ∀ j ∈ s.queue ++ s.running, j.current_distance ≤ p.max_distance

/-- Admission invariant: every queued or running job, and every fetched
domain, is either a seed or passed the emission-time filters (the domain
regex and the excluded set). -/
def SourceOk (p : CrawlParams) (seeds : List String) (s : CrawlState) : Prop :=
  (∀ j ∈ s.queue ++ s.running, j.domain ∈ seeds ∨
    (domainRegexIsMatch j.domain = true ∧ j.domain ∉ p.exclude_domains))
  ∧ (∀ d ∈ s.fetched, d ∈ seeds ∨ (domainRegexIsMatch d = true ∧ d ∉ p.exclude_domains))

/-! ## Concrete fixtures used by witnesses and counterexamples -/

def envNone : String → FetchResult := fun _ => FetchResult.fail "connection refused"

def pFix : CrawlParams := ⟨⟨0, 15, 3, []⟩, [], 10⟩

def jobFix : CrawlJob := ⟨"lemmy.ml", 0⟩

def data8 : FetchData :=
  ⟨some ⟨0, 19, 0, []⟩, some ⟨some ⟨[⟨"b.example"⟩], [⟨"c.example"⟩], []⟩⟩⟩

def sFix : CrawlState := ⟨["lemmy.ml"], [jobFix], [], [], ["lemmy.ml"], true, 2⟩

def s7 : CrawlState := ⟨["lemmy.ml"], [], [jobFix], [], ["lemmy.ml"], true, 2⟩

def out7 : JobOutput := crawlExpand pFix jobFix s7.visited (envNone jobFix.domain)

def env6 : String → FetchResult := fun _ =>
  FetchResult.ok ⟨some ⟨0, 19, 0, []⟩, some ⟨some ⟨[], [], []⟩⟩⟩

def p6 : CrawlParams := ⟨⟨0, 18, 0, []⟩, ["ds9.lemmy.ml"], 10⟩

def job6 : CrawlJob := ⟨"ds9.lemmy.ml", 0⟩

def s6a : CrawlState := initState ["ds9.lemmy.ml"]

def s6b : CrawlState :=
  { s6a with queue := []
             visited := job6.domain :: s6a.visited
             running := job6 :: s6a.running
             fetched := job6.domain :: s6a.fetched }

def out6 : JobOutput := crawlExpand p6 job6 s6b.visited (env6 job6.domain)

def s6c : CrawlState := finishTarget s6b [] [] out6

def stateC2 : CrawlState :=
  { initState [] with orchHandle := false, handles := (initState []).handles - 1 }

/-!
Verification of the lemmy-stats-crawler crawl engine.

The development shallowly embeds the crawl engine of the repository:

* semantic versions and their ordering, as used through the semver crate by
  `min_lemmy_version` (src/lib.rs lines 117-127) and the version gate in
  `CrawlJob::crawl` (src/crawl.rs lines 90-93);
* the domain regex `DOMAIN_REGEX` (src/crawl.rs lines 31-33);
* the body of `CrawlJob::crawl` (src/crawl.rs lines 75-144) as a pure function
  of the fetch outcome, plus a small-step transition relation describing the
  worker pool of `start_crawl` / `background_task` (src/lib.rs lines 41-112),
  with the network abstracted into an environment `env : String → FetchResult`;
* the `serde(untagged)` decode order of the schema union in src/structs.rs.

Machine integers are modelled as `Nat` with explicit `% 2 ^ w` at the points
where the Rust code performs wrapping arithmetic (`u8` distances, the `u64`
minor component).
-/

/-! ## The schema union of src/structs.rs

`GetSiteResponse` in src/structs.rs lines 49-54 is declared
`serde(untagged)` with variant `V018` first and `V019` second; serde tries
untagged variants in declaration order and keeps the first that decodes. A raw
payload is abstracted into the two facts that decide the decode: whether it is
structurally acceptable to each schema. -/

/-! ## Structural facts about one crawl invocation -/

lemma contains_eq_false_iff (l : List String) (a : String) :
    l.contains a = false ↔ a ∉ l := by
  simp

lemma nodup_insert_middle {α : Type} (A B : List α) (x : α) :
    (A ++ x :: B).Nodup ↔ x ∉ A ++ B ∧ (A ++ B).Nodup := by
  rw [List.Perm.nodup_iff List.perm_middle, List.nodup_cons]

lemma perm_take_middle {α : Type} (A B C : List α) (x : α) :
    List.Perm ((A ++ [x]) ++ (B ++ C)) (A ++ (x :: (B ++ C))) := by
  have h1 : List.Perm (A ++ [x]) (x :: A) := List.perm_append_singleton x A
  have h2 : List.Perm ((A ++ [x]) ++ (B ++ C)) (x :: (A ++ (B ++ C))) :=
    h1.append_right (B ++ C)
  exact h2.trans List.perm_middle.symm

lemma crawlExpand_error_shape (p : CrawlParams) (job : CrawlJob) (visited : List String)
    (fr : FetchResult) (e : String)
    (h : (crawlExpand p job visited fr).ret = .error e) :
    (crawlExpand p job visited fr).result = none ∧
    (crawlExpand p job visited fr).children = [] := by
  cases fr with
  | fail m => simp [crawlExpand]
  | ok data =>
    cases hv : data.version with
    | none => simp [crawlExpand, hv]
    | some v =>
      by_cases hlt : semverLt v p.min_lemmy_version = true
      · simp [crawlExpand, hv, hlt]
      · simp [crawlExpand, hv, hlt] at h

lemma crawlExpand_result_domain (p : CrawlParams) (job : CrawlJob) (visited : List String)
    (fr : FetchResult) (r : CrawlResult)
    (h : (crawlExpand p job visited fr).result = some r) :
    r.domain = job.domain := by
  cases fr with
  | fail m => simp [crawlExpand] at h
  | ok data =>
    cases hv : data.version with
    | none => simp [crawlExpand, hv] at h
    | some v =>
      by_cases hlt : semverLt v p.min_lemmy_version = true
      · simp [crawlExpand, hv, hlt] at h
      · simp [crawlExpand, hv, hlt] at h
        rw [← h]

lemma mem_crawlExpand_children (p : CrawlParams) (job : CrawlJob) (visited : List String)
    (fr : FetchResult) (j : CrawlJob)
    (h : j ∈ (crawlExpand p job visited fr).children) :
    job.current_distance < p.max_distance ∧
    j.current_distance = (job.current_distance + 1) % 256 ∧
    j.domain ∈ (linkedOf (fetchFed fr)).map InstanceEntry.domain ∧
    domainRegexIsMatch j.domain = true ∧
    j.domain ∉ p.exclude_domains ∧
    j.domain ∉ visited := by
  cases fr with
  | fail m => simp [crawlExpand] at h
  | ok data =>
    cases hv : data.version with
    | none => simp [crawlExpand, hv] at h
    | some v =>
      by_cases hlt : semverLt v p.min_lemmy_version = true
      · simp [crawlExpand, hv, hlt] at h
      · by_cases hd : job.current_distance < p.max_distance
        · simp only [crawlExpand, hv, hlt, hd, if_true, if_false, Bool.false_eq_true,
            if_pos hd, List.mem_map, List.mem_filter] at h
          obtain ⟨i, ⟨⟨⟨hlink, hexcl⟩, hvis⟩, hregex⟩, hj⟩ := h
          refine ⟨hd, ?_, ?_, ?_, ?_, ?_⟩
          · rw [← hj]
          · rw [← hj]
            simp only [List.mem_map]
            exact ⟨i, hlink, rfl⟩
          · rw [← hj]
            exact hregex
          · rw [← hj]
            simpa using hexcl
          · rw [← hj]
            simpa using hvis
        · simp [crawlExpand, hv, hlt, hd] at h

/-! ## Run invariants -/

lemma step_handleCount {env : String → FetchResult} {p : CrawlParams} {s s2 : CrawlState}
    (h : Step env p s s2) (hinv : s.handles = handleCount s) :
    s2.handles = handleCount s2 := by
  cases h with
  | claimDup job rest hq hv =>
    simp [handleCount, hq] at hinv ⊢
    omega
  | claimNew job rest hq hv =>
    simp [handleCount, hq] at hinv ⊢
    omega
  | finish l1 l2 job out hr ho =>
    simp [handleCount, finishTarget, hr] at hinv ⊢
    omega
  | orchDrop h1 =>
    simp [handleCount, h1] at hinv ⊢
    omega

lemma reachable_handleCount {env : String → FetchResult} {p : CrawlParams}
    {seeds : List String} {s : CrawlState} (h : Reachable env p seeds s) :
    s.handles = handleCount s := by
  induction h with
  | refl => simp [initState, handleCount]
  | tail hab hbc ih => exact step_handleCount hbc ih

lemma step_DomainsOk {env : String → FetchResult} {p : CrawlParams} {s s2 : CrawlState}
    (h : Step env p s s2) (hinv : DomainsOk s) : DomainsOk s2 := by
  obtain ⟨h1, h2, h3, h4⟩ := hinv
  cases h with
  | claimDup job rest hq hv => exact ⟨h1, h2, h3, h4⟩
  | claimNew job rest hq hv =>
    have hnv : job.domain ∉ s.visited := by simpa using hv
    have hnf : job.domain ∉ s.fetched := fun hm => hnv (h4 _ hm)
    have hnrr : job.domain ∉
        s.results.map CrawlResult.domain ++ s.running.map CrawlJob.domain :=
      fun hm => hnf (h2 _ hm)
    refine ⟨?_, ?_, ?_, ?_⟩
    · show (s.results.map CrawlResult.domain ++
        job.domain :: s.running.map CrawlJob.domain).Nodup
      rw [nodup_insert_middle]
      exact ⟨hnrr, h1⟩
    · intro d hd
      show d ∈ job.domain :: s.fetched
      have hd2 : d ∈ job.domain :: (s.results.map CrawlResult.domain ++
          s.running.map CrawlJob.domain) :=
        (List.Perm.mem_iff List.perm_middle).mp hd
      rcases List.mem_cons.mp hd2 with h5 | h5
      · exact h5 ▸ List.mem_cons_self _ _
      · exact List.mem_cons_of_mem _ (h2 _ h5)
    · exact List.nodup_cons.mpr ⟨hnf, h3⟩
    · intro d hd
      rcases List.mem_cons.mp hd with h5 | h5
      · exact h5 ▸ List.mem_cons_self _ _
      · exact List.mem_cons_of_mem _ (h4 _ h5)
  | finish l1 l2 job out hr ho =>
    have hmapr : s.running.map CrawlJob.domain =
        l1.map CrawlJob.domain ++ job.domain :: l2.map CrawlJob.domain := by
      rw [hr]; simp
    have hbig : (s.results.map CrawlResult.domain ++
        (l1.map CrawlJob.domain ++ job.domain :: l2.map CrawlJob.domain)).Nodup := by
      rw [← hmapr]; exact h1
    have hbigm : ∀ d ∈ s.results.map CrawlResult.domain ++
        (l1.map CrawlJob.domain ++ job.domain :: l2.map CrawlJob.domain), d ∈ s.fetched := by
      intro d hd
      apply h2
      rw [hmapr]
      exact hd
    cases hres : out.result with
    | none =>
      have hnew : (s.results ++ out.result.toList).map CrawlResult.domain ++
          (l1 ++ l2).map CrawlJob.domain =
          s.results.map CrawlResult.domain ++
            (l1.map CrawlJob.domain ++ l2.map CrawlJob.domain) := by
        simp [hres]
      have hsub : List.Sublist
          (s.results.map CrawlResult.domain ++
            (l1.map CrawlJob.domain ++ l2.map CrawlJob.domain))
          (s.results.map CrawlResult.domain ++
            (l1.map CrawlJob.domain ++ job.domain :: l2.map CrawlJob.domain)) :=
        ((List.sublist_cons_self job.domain (l2.map CrawlJob.domain)).append_left
          (l1.map CrawlJob.domain)).append_left (s.results.map CrawlResult.domain)
      refine ⟨?_, ?_, h3, h4⟩
      · show ((s.results ++ out.result.toList).map CrawlResult.domain ++
          (l1 ++ l2).map CrawlJob.domain).Nodup
        rw [hnew]
        exact hbig.sublist hsub
      · intro d hd
        show d ∈ s.fetched
        have hd2 : d ∈ (s.results ++ out.result.toList).map CrawlResult.domain ++
            (l1 ++ l2).map CrawlJob.domain := hd
        rw [hnew] at hd2
        exact hbigm d (hsub.mem hd2)
    | some r =>
      have hdom : r.domain = job.domain :=
        crawlExpand_result_domain p job s.visited (env job.domain) r (ho ▸ hres)
      have hnew : (s.results ++ out.result.toList).map CrawlResult.domain ++
          (l1 ++ l2).map CrawlJob.domain =
          (s.results.map CrawlResult.domain ++ [job.domain]) ++
            (l1.map CrawlJob.domain ++ l2.map CrawlJob.domain) := by
        simp [hres, hdom]
      have hperm : List.Perm
          ((s.results.map CrawlResult.domain ++ [job.domain]) ++
            (l1.map CrawlJob.domain ++ l2.map CrawlJob.domain))
          (s.results.map CrawlResult.domain ++
            (l1.map CrawlJob.domain ++ job.domain :: l2.map CrawlJob.domain)) :=
        (perm_take_middle (s.results.map CrawlResult.domain)
          (l1.map CrawlJob.domain) (l2.map CrawlJob.domain) job.domain).trans
          (List.Perm.append_left _ List.perm_middle.symm)
      refine ⟨?_, ?_, h3, h4⟩
      · show ((s.results ++ out.result.toList).map CrawlResult.domain ++
          (l1 ++ l2).map CrawlJob.domain).Nodup
        rw [hnew]
        exact hperm.nodup_iff.mpr hbig
      · intro d hd
        show d ∈ s.fetched
        have hd2 : d ∈ (s.results ++ out.result.toList).map CrawlResult.domain ++
            (l1 ++ l2).map CrawlJob.domain := hd
        rw [hnew] at hd2
        exact hbigm d (hperm.mem_iff.mp hd2)
  | orchDrop hO => exact ⟨h1, h2, h3, h4⟩

lemma reachable_DomainsOk {env : String → FetchResult} {p : CrawlParams}
    {seeds : List String} {s : CrawlState} (h : Reachable env p seeds s) :
    DomainsOk s := by
  induction h with
  | refl =>
    refine ⟨by simp [initState], by simp [initState], by simp [initState], by simp [initState]⟩
  | tail hab hbc ih => exact step_DomainsOk hbc ih

lemma step_DistOk {env : String → FetchResult} {p : CrawlParams} {s s2 : CrawlState}
    (hmax : p.max_distance ≤ 255) (h : Step env p s s2) (hinv : DistOk p s) : DistOk p s2 := by
  cases h with
  | claimDup job rest hq hv =>
    intro j hj
    apply hinv
    rw [hq]
    rcases List.mem_append.mp hj with h5 | h5
    · exact List.mem_append.mpr (Or.inl (List.mem_cons_of_mem _ h5))
    · exact List.mem_append.mpr (Or.inr h5)
  | claimNew job rest hq hv =>
    intro j hj
    apply hinv
    rw [hq]
    have hj2 : j ∈ rest ++ job :: s.running := hj
    have : j ∈ job :: (rest ++ s.running) := (List.Perm.mem_iff List.perm_middle).mp hj2
    rcases List.mem_cons.mp this with h5 | h5
    · exact h5 ▸ List.mem_append.mpr (Or.inl (List.mem_cons_self _ _))
    · rcases List.mem_append.mp h5 with h6 | h6
      · exact List.mem_append.mpr (Or.inl (List.mem_cons_of_mem _ h6))
      · exact List.mem_append.mpr (Or.inr h6)
  | finish l1 l2 job out hr ho =>
    intro j hj
    have hj2 : j ∈ (s.queue ++ out.children) ++ (l1 ++ l2) := hj
    have hjob : job ∈ s.queue ++ s.running := by
      rw [hr]
      exact List.mem_append.mpr (Or.inr (List.mem_append.mpr (Or.inr (List.mem_cons_self _ _))))
    rcases List.mem_append.mp hj2 with h5 | h5
    · rcases List.mem_append.mp h5 with h6 | h6
      · exact hinv j (List.mem_append.mpr (Or.inl h6))
      · obtain ⟨hlt, hdist, _, _, _, _⟩ :=
          mem_crawlExpand_children p job s.visited (env job.domain) j (ho ▸ h6)
        rw [hdist, Nat.mod_eq_of_lt (by omega)]
        omega
    · apply hinv
      rw [hr]
      rcases List.mem_append.mp h5 with h6 | h6
      · exact List.mem_append.mpr (Or.inr (List.mem_append.mpr (Or.inl h6)))
      · exact List.mem_append.mpr (Or.inr (List.mem_append.mpr (Or.inr (List.mem_cons_of_mem _ h6))))
  | orchDrop hO => exact hinv

lemma reachable_DistOk {env : String → FetchResult} {p : CrawlParams}
    {seeds : List String} {s : CrawlState} (hmax : p.max_distance ≤ 255)
    (h : Reachable env p seeds s) : DistOk p s := by
  induction h with
  | refl =>
    intro j hj
    simp only [initState, List.append_nil, List.mem_map] at hj
    obtain ⟨d, _, rfl⟩ := hj
    exact Nat.zero_le _
  | tail hab hbc ih => exact step_DistOk hmax hbc ih

lemma step_SourceOk {env : String → FetchResult} {p : CrawlParams} {seeds : List String}
    {s s2 : CrawlState} (h : Step env p s s2) (hinv : SourceOk p seeds s) :
    SourceOk p seeds s2 := by
  obtain ⟨hq1, hf1⟩ := hinv
  cases h with
  | claimDup job rest hq hv =>
    refine ⟨?_, hf1⟩
    intro j hj
    apply hq1
    rw [hq]
    rcases List.mem_append.mp hj with h5 | h5
    · exact List.mem_append.mpr (Or.inl (List.mem_cons_of_mem _ h5))
    · exact List.mem_append.mpr (Or.inr h5)
  | claimNew job rest hq hv =>
    have hjob : job.domain ∈ seeds ∨
        (domainRegexIsMatch job.domain = true ∧ job.domain ∉ p.exclude_domains) := by
      apply hq1
      rw [hq]
      exact List.mem_append.mpr (Or.inl (List.mem_cons_self _ _))
    refine ⟨?_, ?_⟩
    · intro j hj
      have hj2 : j ∈ rest ++ job :: s.running := hj
      have : j ∈ job :: (rest ++ s.running) := (List.Perm.mem_iff List.perm_middle).mp hj2
      rcases List.mem_cons.mp this with h5 | h5
      · exact h5 ▸ hjob
      · apply hq1
        rw [hq]
        rcases List.mem_append.mp h5 with h6 | h6
        · exact List.mem_append.mpr (Or.inl (List.mem_cons_of_mem _ h6))
        · exact List.mem_append.mpr (Or.inr h6)
    · intro d hd
      rcases List.mem_cons.mp hd with h5 | h5
      · exact h5 ▸ hjob
      · exact hf1 _ h5
  | finish l1 l2 job out hr ho =>
    refine ⟨?_, hf1⟩
    intro j hj
    have hj2 : j ∈ (s.queue ++ out.children) ++ (l1 ++ l2) := hj
    rcases List.mem_append.mp hj2 with h5 | h5
    · rcases List.mem_append.mp h5 with h6 | h6
      · exact hq1 j (List.mem_append.mpr (Or.inl h6))
      · obtain ⟨_, _, _, hregex, hexcl, _⟩ :=
          mem_crawlExpand_children p job s.visited (env job.domain) j (ho ▸ h6)
        exact Or.inr ⟨hregex, hexcl⟩
    · apply hq1
      rw [hr]
      rcases List.mem_append.mp h5 with h6 | h6
      · exact List.mem_append.mpr (Or.inr (List.mem_append.mpr (Or.inl h6)))
      · exact List.mem_append.mpr (Or.inr (List.mem_append.mpr (Or.inr (List.mem_cons_of_mem _ h6))))
  | orchDrop hO => exact ⟨hq1, hf1⟩

lemma reachable_SourceOk {env : String → FetchResult} {p : CrawlParams}
    {seeds : List String} {s : CrawlState} (h : Reachable env p seeds s) :
    SourceOk p seeds s := by
  induction h with
  | refl =>
    constructor
    · intro j hj
      simp only [initState, List.append_nil, List.mem_map] at hj
      obtain ⟨d, hd, rfl⟩ := hj
      exact Or.inl hd
    · intro d hd
      simp [initState] at hd
  | tail hab hbc ih => exact step_SourceOk hbc ih

lemma reach_s6c : Reachable env6 p6 ["ds9.lemmy.ml"] s6c :=
  Relation.ReflTransGen.head (Step.claimNew s6a job6 [] rfl rfl)
    (Relation.ReflTransGen.single (Step.finish s6b [] [] job6 out6 rfl rfl))

/-! ## Claim theorems -/

/-- Claim C1: in every reachable state of a crawl run, each address is claimed
by at most one worker and contributes at most one CrawlResult, even when
several seeds or several concurrently processed peer lists reference the same
address: the membership test and the insert of `CrawlJob::crawl` happen as one
atomic step under the single mutex before any network call (the `claimNew`
transition, whose losing branch `claimDup` fetches nothing, emits nothing and
enqueues nothing), so the fetched domains are pairwise distinct and so are the
domains of the emitted results together with those of the running jobs. -/
theorem C1_visited_set_exclusivity (env : String → FetchResult) (p : CrawlParams)
    (seeds : List String) (s : CrawlState) (h : Reachable env p seeds s) :
    (s.results.map CrawlResult.domain ++ s.running.map CrawlJob.domain).Nodup
    ∧ (s.results.map CrawlResult.domain).Nodup
    ∧ s.fetched.Nodup := by
  obtain ⟨h1, h2, h3, h4⟩ := reachable_DomainsOk h
  exact ⟨h1, h1.sublist (List.sublist_append_left _ _), h3⟩

/-- Witness for C1, at the end of the two-step run of the `env6` fixture. -/
theorem C1_visited_set_exclusivity_witness :
    (s6c.results.map CrawlResult.domain ++ s6c.running.map CrawlJob.domain).Nodup
    ∧ (s6c.results.map CrawlResult.domain).Nodup
    ∧ s6c.fetched.Nodup :=
  C1_visited_set_exclusivity env6 p6 ["ds9.lemmy.ml"] s6c reach_s6c

/-- Claim C2: the run-scoped `Arc<CrawlParams>` handles number exactly one per
queued job plus one per running job plus the orchestrator's own, and the
result channel — whose only sender lives inside `CrawlParams` — is closed
exactly when that count is zero; hence once the orchestrator has dropped its
handle (which `start_crawl` does before draining), closure holds if and only
if no crawl job is queued and no crawl job is running. -/
theorem C2_result_channel_closes_at_quiescence (env : String → FetchResult)
    (p : CrawlParams) (seeds : List String) (s : CrawlState)
    (h : Reachable env p seeds s) (horch : s.orchHandle = false) :
    s.handles = s.queue.length + s.running.length
    ∧ (resultChannelClosed s = true ↔ (s.queue = [] ∧ s.running = [])) := by
  have hh := reachable_handleCount h
  rw [handleCount, horch] at hh
  simp only [if_false, Bool.false_eq_true, Nat.add_zero] at hh
  refine ⟨hh, ?_⟩
  rw [resultChannelClosed]
  simp [hh, Nat.add_eq_zero, List.length_eq_zero]

/-- Witness for C2: the empty-seed run right after the orchestrator drop. -/
theorem C2_result_channel_closes_at_quiescence_witness :
    stateC2.handles = stateC2.queue.length + stateC2.running.length
    ∧ (resultChannelClosed stateC2 = true ↔ (stateC2.queue = [] ∧ stateC2.running = [])) :=
  C2_result_channel_closes_at_quiescence envNone pFix [] stateC2
    (Relation.ReflTransGen.single (Step.orchDrop (initState []) rfl)) rfl

/-- Claim C3: every CrawlJob ever constructed has
`current_distance ≤ max_distance`: seed jobs are created at distance 0 and a
worker enqueues a child (at `current_distance + 1`) only when its own distance
is strictly below `max_distance`, so every queued or running job of every
reachable state respects the bound (`max_distance` is a `u8`, hence ≤ 255). -/
theorem C3_distance_bound (env : String → FetchResult) (p : CrawlParams)
    (seeds : List String) (s : CrawlState) (hmax : p.max_distance ≤ 255)
    (h : Reachable env p seeds s) :
    ∀ j ∈ s.queue ++ s.running, j.current_distance ≤ p.max_distance :=
  reachable_DistOk hmax h

/-- Witness for C3, at the seed job of a singleton run. -/
theorem C3_distance_bound_witness : jobFix.current_distance ≤ pFix.max_distance :=
  C3_distance_bound envNone pFix ["lemmy.ml"] (initState ["lemmy.ml"]) (by decide)
    Relation.ReflTransGen.refl jobFix (by decide)

/-- Claim C4: the minimum acceptable version keeps major and patch and
decrements minor by one (for any published version with `1 ≤ minor`, the only
well-defined case), a server is rejected — its job errors and emits no result
— iff its parsed version is strictly below that minimum, and at published
version 0.16.3 the minimum is 0.15.3, so 0.15.2 is rejected while 0.15.3 and
0.16.3 are accepted. -/
theorem C4_version_gate_boundary :
    (∀ v : SemVer, 1 ≤ v.minor → v.minor < U64MOD →
      min_lemmy_version v = ⟨v.major, v.minor - 1, v.patch, v.pre⟩)
    ∧ min_lemmy_version ⟨0, 16, 3, []⟩ = ⟨0, 15, 3, []⟩
    ∧ (∀ (p : CrawlParams) (job : CrawlJob) (visited : List String)
        (fed : Option GetFederatedInstancesResponse) (v : SemVer),
        ((crawlExpand p job visited (.ok ⟨some v, fed⟩)).result = none ↔
          semverLt v p.min_lemmy_version = true))
    ∧ semverLt ⟨0, 15, 2, []⟩ (min_lemmy_version ⟨0, 16, 3, []⟩) = true
    ∧ semverLt ⟨0, 15, 3, []⟩ (min_lemmy_version ⟨0, 16, 3, []⟩) = false
    ∧ semverLt ⟨0, 16, 3, []⟩ (min_lemmy_version ⟨0, 16, 3, []⟩) = false := by
  have hU : U64MOD = 18446744073709551616 := by norm_num [U64MOD]
  refine ⟨?_, by decide, ?_, by decide, by decide, by decide⟩
  · intro v h1 h2
    rw [hU] at h2
    have hmod : (v.minor + (18446744073709551616 - 1)) % 18446744073709551616 =
        v.minor - 1 := by omega
    simp only [min_lemmy_version, hU, hmod]
  · intro p job visited fed v
    by_cases hlt : semverLt v p.min_lemmy_version = true
    · simp [crawlExpand, hlt]
    · simp [crawlExpand, hlt]

/-- Witness for C4 at the published version 0.16.3 and a 0.15.2 server. -/
theorem C4_version_gate_boundary_witness :
    min_lemmy_version ⟨0, 16, 3, []⟩ = ⟨0, 16 - 1, 3, []⟩
    ∧ ((crawlExpand pFix jobFix [] (.ok ⟨some ⟨0, 15, 2, []⟩, none⟩)).result = none ↔
        semverLt ⟨0, 15, 2, []⟩ pFix.min_lemmy_version = true) :=
  ⟨C4_version_gate_boundary.1 ⟨0, 16, 3, []⟩ (by decide) (by decide),
   C4_version_gate_boundary.2.2.1 pFix jobFix [] none ⟨0, 15, 2, []⟩⟩

/-- Claim C5 counterexample: `GetSiteResponse` in src/structs.rs declares the
`serde(untagged)` variants with `V018` first, so a payload that decodes under
both the v0.18 and the v0.19 schema is adopted as the OLDER (v0.18) variant,
not as the newer (v0.19) one as the claim states. -/
theorem C5_newest_first_counterexample :
    decodeGetSiteResponse ⟨true, true⟩ = some SchemaTag.V018
    ∧ decodeGetSiteResponse ⟨true, true⟩ ≠ some SchemaTag.V019 := by decide

/-- Claim C5 amended: the known schema versions are attempted in the fixed
declaration order of the untagged union, which is oldest first (v0.18 before
v0.19), and the first schema that decodes without structural error is adopted;
a payload that decodes under both schemas is adopted as the v0.18 variant, and
a payload no schema accepts fails to decode. -/
theorem C5_decode_order_amended :
    (∀ q : RawPayload, q.decodesAsV018 = true →
      decodeGetSiteResponse q = some SchemaTag.V018)
    ∧ (∀ q : RawPayload, q.decodesAsV018 = false → q.decodesAsV019 = true →
      decodeGetSiteResponse q = some SchemaTag.V019)
    ∧ (∀ q : RawPayload, q.decodesAsV018 = false → q.decodesAsV019 = false →
      decodeGetSiteResponse q = none) := by
  refine ⟨?_, ?_, ?_⟩
  · intro q h1
    simp [decodeGetSiteResponse, h1]
  · intro q h1 h2
    simp [decodeGetSiteResponse, h1, h2]
  · intro q h1 h2
    simp [decodeGetSiteResponse, h1, h2]

/-- Witness for the amended C5, at the three payload shapes. -/
theorem C5_decode_order_amended_witness :
    decodeGetSiteResponse ⟨true, true⟩ = some SchemaTag.V018
    ∧ decodeGetSiteResponse ⟨false, true⟩ = some SchemaTag.V019
    ∧ decodeGetSiteResponse ⟨false, false⟩ = none :=
  ⟨C5_decode_order_amended.1 ⟨true, true⟩ rfl,
   C5_decode_order_amended.2.1 ⟨false, true⟩ rfl rfl,
   C5_decode_order_amended.2.2 ⟨false, false⟩ rfl rfl⟩

/-- Claim C6 counterexample: the pre-fetch rejection does not cover seeds. For
the run seeded with the excluded address "ds9.lemmy.ml", `start_crawl`
enqueues the seed without consulting the excluded set or the domain regex,
a worker claims it and starts `fetch_instance_details`, and the job even
emits a CrawlResult for the excluded address. -/
theorem C6_excluded_seed_counterexample :
    Reachable env6 p6 ["ds9.lemmy.ml"] s6c
    ∧ "ds9.lemmy.ml" ∈ p6.exclude_domains
    ∧ "ds9.lemmy.ml" ∈ s6c.fetched
    ∧ s6c.results.map CrawlResult.domain = ["ds9.lemmy.ml"] :=
  ⟨reach_s6c, by decide, by decide, by decide⟩

/-- Claim C6 amended: the Domain Validator, the excluded set and the distance
bound are enforced at child-emission time only. Every queued or running job
and every fetched address of a reachable state is either a seed — seeds are
enqueued and fetched without any of these checks, so an excluded or malformed
seed is still fetched — or a peer-discovered address that passed the domain
regex and is outside the excluded set; peer addresses failing those filters,
and children of a parent at maximal distance, never become jobs and are never
fetched. -/
theorem C6_prefetch_rejection_amended (env : String → FetchResult) (p : CrawlParams)
    (seeds : List String) (s : CrawlState) (h : Reachable env p seeds s) :
    (∀ j ∈ s.queue ++ s.running, j.domain ∈ seeds ∨
      (domainRegexIsMatch j.domain = true ∧ j.domain ∉ p.exclude_domains))
    ∧ (∀ d ∈ s.fetched, d ∈ seeds ∨
      (domainRegexIsMatch d = true ∧ d ∉ p.exclude_domains)) :=
  reachable_SourceOk h

/-- Witness for the amended C6, at the fetched seed of the `env6` run. -/
theorem C6_prefetch_rejection_amended_witness :
    "ds9.lemmy.ml" ∈ ["ds9.lemmy.ml"] ∨
      (domainRegexIsMatch "ds9.lemmy.ml" = true ∧ "ds9.lemmy.ml" ∉ p6.exclude_domains) :=
  (C6_prefetch_rejection_amended env6 p6 ["ds9.lemmy.ml"] s6c reach_s6c).2
    "ds9.lemmy.ml" (by decide)

/-- Claim C7: a job that fails — transport error, undecodable schema, wrong
software name, identity mismatch (all folded into `FetchResult.fail`), or a
version below the gate — emits no CrawlResult and enqueues no children, and
the worker loop swallows the error after logging: the `finish` transition is
taken all the same, the run continues, and the result list and job queue are
left exactly as they were. -/
theorem C7_failed_jobs_silent (env : String → FetchResult) (p : CrawlParams)
    (s : CrawlState) (l1 l2 : List CrawlJob) (job : CrawlJob) (out : JobOutput) (e : String)
    (hr : s.running = l1 ++ job :: l2)
    (ho : crawlExpand p job s.visited (env job.domain) = out)
    (herr : out.ret = .error e) :
    out.result = none ∧ out.children = []
    ∧ Step env p s (finishTarget s l1 l2 out)
    ∧ (finishTarget s l1 l2 out).results = s.results
    ∧ (finishTarget s l1 l2 out).queue = s.queue := by
  have hshape := crawlExpand_error_shape p job s.visited (env job.domain) e
    (by rw [ho]; exact herr)
  rw [ho] at hshape
  refine ⟨hshape.1, hshape.2, Step.finish s l1 l2 job out hr ho, ?_, ?_⟩
  · show s.results ++ out.result.toList = s.results
    rw [hshape.1]
    simp
  · show s.queue ++ out.children = s.queue
    rw [hshape.2]
    simp

/-- Witness for C7: a transport failure on the fixture run. -/
theorem C7_failed_jobs_silent_witness :
    out7.result = none ∧ out7.children = []
    ∧ Step envNone pFix s7 (finishTarget s7 [] [] out7)
    ∧ (finishTarget s7 [] [] out7).results = s7.results
    ∧ (finishTarget s7 [] [] out7).queue = s7.queue :=
  C7_failed_jobs_silent envNone pFix s7 [] [] jobFix out7 "connection refused" rfl rfl rfl

/-- Claim C8: child CrawlJobs are constructed only from the linked peer list
of a successfully fetched server — every child's domain is a member of the
linked list, so an address appearing only in the allowed or blocked lists
never becomes a child job — while the emitted CrawlResult records all three
lists (linked, allowed, blocked). -/
theorem C8_children_from_linked_only (p : CrawlParams) (job : CrawlJob)
    (visited : List String) (data : FetchData) :
    (∀ j ∈ (crawlExpand p job visited (.ok data)).children,
      j.domain ∈ (linkedOf data.federated).map InstanceEntry.domain)
    ∧ (∀ r : CrawlResult, (crawlExpand p job visited (.ok data)).result = some r →
      r.linked_instances =
        ((fedJoin data.federated).map (fun fi => fi.linked.map InstanceEntry.domain)).getD []
      ∧ r.allowed_instances =
        ((fedJoin data.federated).map (fun fi => fi.allowed.map InstanceEntry.domain)).getD []
      ∧ r.blocked_instances =
        ((fedJoin data.federated).map (fun fi => fi.blocked.map InstanceEntry.domain)).getD []) := by
  constructor
  · intro j hj
    exact (mem_crawlExpand_children p job visited (.ok data) j hj).2.2.1
  · intro r hres
    cases hv : data.version with
    | none => simp [crawlExpand, hv] at hres
    | some v =>
      by_cases hlt : semverLt v p.min_lemmy_version = true
      · simp [crawlExpand, hv, hlt] at hres
      · simp only [crawlExpand, hv, hlt, Bool.false_eq_true, if_false,
          Option.some.injEq] at hres
        rw [← hres]
        exact ⟨rfl, rfl, rfl⟩

/-- Witness for C8: a fetch whose payload links "b.example" and allows only
"c.example"; the sole child comes from the linked list, the result records
both lists. -/
theorem C8_children_from_linked_only_witness :
    ((⟨"b.example", 1⟩ : CrawlJob).domain ∈
      (linkedOf data8.federated).map InstanceEntry.domain)
    ∧ ((⟨"lemmy.ml", ["b.example"], ["c.example"], []⟩ : CrawlResult).linked_instances =
        ((fedJoin data8.federated).map (fun fi => fi.linked.map InstanceEntry.domain)).getD []) :=
  ⟨(C8_children_from_linked_only pFix jobFix [] data8).1 ⟨"b.example", 1⟩ (by decide),
   ((C8_children_from_linked_only pFix jobFix [] data8).2
      ⟨"lemmy.ml", ["b.example"], ["c.example"], []⟩ (by decide)).1⟩

/-- Claim C9: a CrawlJob whose domain is already in the visited set returns
success (`Ok`), not an error: `crawlSeq` leaves the visited set unchanged,
emits no child and no result, returns `Except.ok`, and this holds for every
fetch outcome — no network request is consulted; at the system level the
`claimDup` transition merely removes the job from the queue and releases its
handle, leaving visited set, running jobs, results and fetch log untouched. -/
theorem C9_duplicate_job_returns_ok (p : CrawlParams) (job : CrawlJob)
    (visited : List String) (fr : FetchResult)
    (h : visited.contains job.domain = true) :
    crawlSeq p job visited fr = (visited, ⟨[], none, Except.ok ()⟩)
    ∧ ∀ (env : String → FetchResult) (s : CrawlState) (rest : List CrawlJob),
        s.queue = job :: rest → s.visited = visited →
        Step env p s { s with queue := rest, handles := s.handles - 1 } := by
  constructor
  · have hm : job.domain ∈ visited := by simpa using h
    simp [crawlSeq, hm]
  · intro env s rest hq hv
    exact Step.claimDup s job rest hq (by rw [hv]; exact h)

/-- Witness for C9: the fixture job re-offered after its domain was claimed. -/
theorem C9_duplicate_job_returns_ok_witness :
    crawlSeq pFix jobFix ["lemmy.ml"] (FetchResult.fail "x") =
      (["lemmy.ml"], ⟨[], none, Except.ok ()⟩)
    ∧ Step envNone pFix sFix { sFix with queue := [], handles := sFix.handles - 1 } :=
  ⟨(C9_duplicate_job_returns_ok pFix jobFix ["lemmy.ml"] (FetchResult.fail "x") (by decide)).1,
   (C9_duplicate_job_returns_ok pFix jobFix ["lemmy.ml"] (FetchResult.fail "x") (by decide)).2
     envNone sFix [] rfl rfl⟩

/-- Claim C10: the version-gate derivation is well defined exactly when the
published minor component is at least 1 — then it keeps major and patch and
decrements minor — while for minor = 0 the unsigned `minor -= 1` underflows,
wrapping to the maximal `u64` value instead of a meaningful minimum. -/
theorem C10_minor_underflow :
    (∀ v : SemVer, 1 ≤ v.minor → v.minor < U64MOD →
      min_lemmy_version v = ⟨v.major, v.minor - 1, v.patch, v.pre⟩)
    ∧ (∀ (M P : Nat) (pre : List PreId),
      (min_lemmy_version ⟨M, 0, P, pre⟩).minor = U64MOD - 1) := by
  have hU : U64MOD = 18446744073709551616 := by norm_num [U64MOD]
  constructor
  · intro v h1 h2
    rw [hU] at h2
    have hmod : (v.minor + (18446744073709551616 - 1)) % 18446744073709551616 =
        v.minor - 1 := by omega
    simp only [min_lemmy_version, hU, hmod]
  · intro M P pre
    simp only [min_lemmy_version, hU]

/-- Witness for C10 at the published versions 0.16.3 and 1.0.0. -/
theorem C10_minor_underflow_witness :
    min_lemmy_version ⟨0, 16, 3, []⟩ = ⟨0, 16 - 1, 3, []⟩
    ∧ (min_lemmy_version ⟨1, 0, 0, []⟩).minor = U64MOD - 1 :=
  ⟨C10_minor_underflow.1 ⟨0, 16, 3, []⟩ (by decide) (by decide),
   C10_minor_underflow.2 1 0 []⟩

end LemmyCrawler
